import Mathlib

/-!
Verification of the PWA2Native icon pipeline.

This file embeds the icon acquisition and per-platform image transformation
pipeline of the PWA2Native repository (`src/pwa2native/utils/icons.py`,
`src/pwa2native/packager/*.py`, `src/pwa2native.py`) as executable Lean
definitions and proves or refutes the frozen claims about it.

Python strings are embedded as `List Char`; Python `int` as `Int`; code
that can raise is embedded with `Except`; the external imaging library and
HTTP client are modelled by explicit executable functions, each marked in
its doc string.
-/

namespace PWA2Native

/-- Python strings are embedded as lists of characters. -/
abbrev Str := List Char

/-- The Python exceptions that the embedded code can raise. -/
inductive PyErr where
  | typeError
  | valueError
  deriving DecidableEq, Repr

/-- One manifest icon descriptor: a Python dict with the keys the code
reads (`src`, `sizes`, `local_path`); a missing key is `none`.
Mirrors the entries of `PWAPackager.icons` in `src/pwa2native/packager/base.py`. -/
structure Icon where
  src : Option Str
  sizes : Option Str
  local_path : Option Str
  deriving DecidableEq, Repr

/-- Decimal digits to a natural number, most significant first. -/
def digitsToNat (ds : List Char) : Nat :=
  ds.foldl (fun a c => 10 * a + (c.toNat - '0'.toNat)) 0

/-- Modelled from the external Python builtin `int(str)`: optional
surrounding whitespace, an optional single sign, then a non-empty run of
ASCII digits; anything else raises `ValueError` (here: `none`).
(The underscore digit grouping and non-ASCII digits accepted by CPython are
not modelled; no input in this development uses them.) -/
def pyInt (s : Str) : Option Int :=
  let t := ((s.dropWhile Char.isWhitespace).reverse.dropWhile Char.isWhitespace).reverse
  match t with
  | '+' :: ds => if ds ≠ [] ∧ ds.all Char.isDigit then some (digitsToNat ds) else none
  | '-' :: ds => if ds ≠ [] ∧ ds.all Char.isDigit then some (-(digitsToNat ds : Int)) else none
  | ds => if ds ≠ [] ∧ ds.all Char.isDigit then some (digitsToNat ds) else none

/-- Python `s.split('x')[0]`: the prefix of `s` before the first `'x'`. -/
def beforeX (s : Str) : Str := s.takeWhile (fun c => c ≠ 'x')

/-- The loop of `IconProcessor.get_icon_for_size`
(`src/pwa2native/utils/icons.py` lines 55-66): descriptors missing
`local_path` or `sizes` are skipped; otherwise `int(icon['sizes'].split('x')[0])`
is taken (raising `ValueError` if unparseable) and a strictly smaller
distance replaces the current best. -/
def selectLoop (target : Int) : List Icon → Option (Str × Nat) → Except PyErr (Option Str)
  | [], best => .ok (best.map Prod.fst)
  | ic :: rest, best =>
    match ic.local_path, ic.sizes with
    | some lp, some sz =>
      match pyInt (beforeX sz) with
      | none => .error .valueError
      | some n =>
        match best with
        | none => selectLoop target rest (some (lp, (n - target).natAbs))
        | some (bl, bd) =>
          selectLoop target rest
            (some (if (n - target).natAbs < bd then (lp, (n - target).natAbs) else (bl, bd)))
    | _, _ => selectLoop target rest best

/-- `IconProcessor.get_icon_for_size` (`src/pwa2native/utils/icons.py`
lines 47-66; identical to `PWAPackager.get_icon_for_size` in
`src/pwa2native.py` lines 151-170). An empty catalog returns `None`;
otherwise the selection loop runs with `best = None`, `best_size_diff = inf`. -/
def get_icon_for_size (icons : List Icon) (target : Int) : Except PyErr (Option Str) :=
  if icons.isEmpty then .ok none else selectLoop target icons none

/-- Eligibility of a descriptor for size selection, with its `local_path`
and its distance to the target: present `local_path` and `sizes`, and a
parseable width. -/
def eligPair (target : Int) (ic : Icon) : Option (Str × Nat) :=
  match ic.local_path, ic.sizes with
  | some lp, some sz => (pyInt (beforeX sz)).map (fun n => (lp, (n - target).natAbs))
  | _, _ => none

/-- A descriptor is eligible when it has `local_path`, `sizes`, and the
width parses. -/
def eligibleB (ic : Icon) : Bool :=
  match ic.local_path, ic.sizes with
  | some _, some sz => (pyInt (beforeX sz)).isSome
  | _, _ => false

/-- Every descriptor that has both `local_path` and `sizes` set has a
parseable width (so the selection loop cannot raise). -/
def allParseOk (icons : List Icon) : Bool :=
  icons.all (fun ic =>
    match ic.local_path, ic.sizes with
    | some _, some sz => (pyInt (beforeX sz)).isSome
    | _, _ => true)

/-- The selection result `r` is the `local_path` of the eligible descriptor
minimizing the distance to `target`, the earliest such descriptor in
catalog order winning ties: there is a witnessing index `i` that is
eligible, whose distance is `≤` every eligible distance, and strictly `<`
the distance of every earlier eligible descriptor. -/
def selectsBestMatch (icons : List Icon) (target : Int) (r : Except PyErr (Option Str)) : Prop :=
  ∃ i, ∃ h : i < icons.length, ∃ lp d,
    eligPair target (icons.get ⟨i, h⟩) = some (lp, d) ∧
    r = .ok (some lp) ∧
    ∀ j, ∀ hj : j < icons.length, ∀ lp2 d2,
      eligPair target (icons.get ⟨j, hj⟩) = some (lp2, d2) → d ≤ d2 ∧ (j < i → d < d2)

section SelectLemmas

variable {target : Int} {ic : Icon} {rest : List Icon}

theorem selectLoop_cons_skip (hk : ic.local_path = none ∨ ic.sizes = none)
    (best : Option (Str × Nat)) :
    selectLoop target (ic :: rest) best = selectLoop target rest best := by
  rcases hk with h | h
  · simp only [selectLoop, h]
  · cases hlp : ic.local_path with
    | none => simp only [selectLoop, hlp]
    | some lp => simp only [selectLoop, hlp, h]

theorem selectLoop_cons_elig {lp sz : Str} {n : Int}
    (hlp : ic.local_path = some lp) (hsz : ic.sizes = some sz)
    (hn : pyInt (beforeX sz) = some n) :
    selectLoop target (ic :: rest) none =
      selectLoop target rest (some (lp, (n - target).natAbs)) := by
  simp only [selectLoop, hlp, hsz, hn]

theorem selectLoop_cons_elig_acc {lp sz bl : Str} {n : Int} {bd : Nat}
    (hlp : ic.local_path = some lp) (hsz : ic.sizes = some sz)
    (hn : pyInt (beforeX sz) = some n) :
    selectLoop target (ic :: rest) (some (bl, bd)) =
      selectLoop target rest
        (some (if (n - target).natAbs < bd then (lp, (n - target).natAbs) else (bl, bd))) := by
  simp only [selectLoop, hlp, hsz, hn]

theorem selectLoop_cons_err {lp sz : Str}
    (hlp : ic.local_path = some lp) (hsz : ic.sizes = some sz)
    (hn : pyInt (beforeX sz) = none) (best : Option (Str × Nat)) :
    selectLoop target (ic :: rest) best = .error .valueError := by
  simp only [selectLoop, hlp, hsz, hn]

theorem eligPair_skip (hk : ic.local_path = none ∨ ic.sizes = none) :
    eligPair target ic = none := by
  rcases hk with h | h
  · simp only [eligPair, h]
  · cases hlp : ic.local_path with
    | none => simp only [eligPair, hlp]
    | some lp => simp only [eligPair, hlp, h]

theorem eligPair_elig {lp sz : Str} {n : Int}
    (hlp : ic.local_path = some lp) (hsz : ic.sizes = some sz)
    (hn : pyInt (beforeX sz) = some n) :
    eligPair target ic = some (lp, (n - target).natAbs) := by
  simp only [eligPair, hlp, hsz, hn, Option.map_some']

theorem eligibleB_skip (hk : ic.local_path = none ∨ ic.sizes = none) :
    eligibleB ic = false := by
  rcases hk with h | h
  · simp only [eligibleB, h]
  · cases hlp : ic.local_path with
    | none => simp only [eligibleB, hlp]
    | some lp => simp only [eligibleB, hlp, h]

theorem allParseOk_cons {icons : List Icon} (h : allParseOk (ic :: icons) = true) :
    allParseOk icons = true := by
  unfold allParseOk at h ⊢
  simp only [List.all_cons, Bool.and_eq_true] at h
  exact h.2

theorem allParseOk_head {lp sz : Str} (hlp : ic.local_path = some lp)
    (hsz : ic.sizes = some sz) (h : allParseOk (ic :: rest) = true) :
    (pyInt (beforeX sz)).isSome := by
  unfold allParseOk at h
  simp only [List.all_cons, Bool.and_eq_true] at h
  have h1 := h.1
  rw [hlp, hsz] at h1
  exact h1

end SelectLemmas

/-- Accumulator invariant for the selection loop: starting from a current
best `(bl, bd)`, the loop either keeps the current best (which is then `≤`
every eligible distance in the remaining list) or returns a strictly better
eligible descriptor that is minimal and first-minimal in the remaining list. -/
theorem selectLoop_acc_spec (target : Int) :
    ∀ (icons : List Icon) (bl : Str) (bd : Nat), allParseOk icons = true →
    (selectLoop target icons (some (bl, bd)) = .ok (some bl) ∧
      (∀ j, ∀ hj : j < icons.length, ∀ lp2 d2,
        eligPair target (icons.get ⟨j, hj⟩) = some (lp2, d2) → bd ≤ d2)) ∨
    (∃ i, ∃ h : i < icons.length, ∃ lp d,
      eligPair target (icons.get ⟨i, h⟩) = some (lp, d) ∧
      selectLoop target icons (some (bl, bd)) = .ok (some lp) ∧ d < bd ∧
      (∀ j, ∀ hj : j < icons.length, ∀ lp2 d2,
        eligPair target (icons.get ⟨j, hj⟩) = some (lp2, d2) → d ≤ d2 ∧ (j < i → d < d2))) := by
  intro icons
  induction icons with
  | nil =>
    intro bl bd _
    left
    refine ⟨rfl, ?_⟩
    intro j hj
    exact absurd hj (by simp)
  | cons ic rest ih =>
    intro bl bd hall
    have hallrest : allParseOk rest = true := allParseOk_cons hall
    by_cases hk : ic.local_path = none ∨ ic.sizes = none
    · have hstep := @selectLoop_cons_skip target ic rest hk (some (bl, bd))
      have helig : eligPair target ic = none := eligPair_skip hk
      rcases ih bl bd hallrest with ⟨hres, hmin⟩ | ⟨i, hi, lp, d, helg, hres, hlt, hmin⟩
      · left
        refine ⟨by rw [hstep]; exact hres, ?_⟩
        intro j hj lp2 d2 hj2
        cases j with
        | zero => simp only [List.get] at hj2; rw [helig] at hj2; cases hj2
        | succ j' =>
          exact hmin j' (by simpa using hj) lp2 d2 (by simpa using hj2)
      · right
        refine ⟨i + 1, by simpa using hi, lp, d, by simpa using helg,
          by rw [hstep]; exact hres, hlt, ?_⟩
        intro j hj lp2 d2 hj2
        cases j with
        | zero => simp only [List.get] at hj2; rw [helig] at hj2; cases hj2
        | succ j' =>
          have := hmin j' (by simpa using hj) lp2 d2 (by simpa using hj2)
          exact ⟨this.1, fun hlt' => this.2 (by omega)⟩
    · push_neg at hk
      rcases Option.ne_none_iff_exists'.mp hk.1 with ⟨lp0, hlp⟩
      rcases Option.ne_none_iff_exists'.mp hk.2 with ⟨sz, hsz⟩
      have hps := allParseOk_head hlp hsz hall
      rcases Option.isSome_iff_exists.mp hps with ⟨n, hn⟩
      have helig : eligPair target ic = some (lp0, (n - target).natAbs) :=
        eligPair_elig hlp hsz hn
      have hstep := @selectLoop_cons_elig_acc target ic rest lp0 sz bl n bd hlp hsz hn
      set d0 := (n - target).natAbs with hd0
      by_cases hcmp : d0 < bd
      · rw [if_pos hcmp] at hstep
        rcases ih lp0 d0 hallrest with ⟨hres, hmin⟩ | ⟨i, hi, lp, d, helg, hres, hlt, hmin⟩
        · right
          refine ⟨0, by simp, lp0, d0, by simpa using helig,
            by rw [hstep]; exact hres, hcmp, ?_⟩
          intro j hj lp2 d2 hj2
          cases j with
          | zero =>
            simp only [List.get] at hj2
            rw [helig] at hj2
            cases hj2
            exact ⟨le_refl _, by omega⟩
          | succ j' =>
            have := hmin j' (by simpa using hj) lp2 d2 (by simpa using hj2)
            exact ⟨this, by omega⟩
        · right
          refine ⟨i + 1, by simpa using hi, lp, d, by simpa using helg,
            by rw [hstep]; exact hres, by omega, ?_⟩
          intro j hj lp2 d2 hj2
          cases j with
          | zero =>
            simp only [List.get] at hj2
            rw [helig] at hj2
            cases hj2
            exact ⟨by omega, fun _ => hlt⟩
          | succ j' =>
            have := hmin j' (by simpa using hj) lp2 d2 (by simpa using hj2)
            exact ⟨this.1, fun hlt' => this.2 (by omega)⟩
      · rw [if_neg hcmp] at hstep
        rcases ih bl bd hallrest with ⟨hres, hmin⟩ | ⟨i, hi, lp, d, helg, hres, hlt, hmin⟩
        · left
          refine ⟨by rw [hstep]; exact hres, ?_⟩
          intro j hj lp2 d2 hj2
          cases j with
          | zero =>
            simp only [List.get] at hj2
            rw [helig] at hj2
            cases hj2
            omega
          | succ j' =>
            exact hmin j' (by simpa using hj) lp2 d2 (by simpa using hj2)
        · right
          refine ⟨i + 1, by simpa using hi, lp, d, by simpa using helg,
            by rw [hstep]; exact hres, hlt, ?_⟩
          intro j hj lp2 d2 hj2
          cases j with
          | zero =>
            simp only [List.get] at hj2
            rw [helig] at hj2
            cases hj2
            exact ⟨by omega, fun _ => by omega⟩
          | succ j' =>
            have := hmin j' (by simpa using hj) lp2 d2 (by simpa using hj2)
            exact ⟨this.1, fun hlt' => this.2 (by omega)⟩

/-- From an empty accumulator, the loop on a catalog containing an eligible
descriptor computes the first minimal eligible descriptor. -/
theorem selectLoop_none_spec (target : Int) :
    ∀ (icons : List Icon), allParseOk icons = true → icons.any eligibleB = true →
    selectsBestMatch icons target (selectLoop target icons none) := by
  intro icons
  induction icons with
  | nil => intro _ h; simp at h
  | cons ic rest ih =>
    intro hall hany
    have hallrest : allParseOk rest = true := allParseOk_cons hall
    by_cases hk : ic.local_path = none ∨ ic.sizes = none
    · have hstep := @selectLoop_cons_skip target ic rest hk none
      have helig : eligPair target ic = none := eligPair_skip hk
      have hne : eligibleB ic = false := eligibleB_skip hk
      have hanyrest : rest.any eligibleB = true := by
        simp only [List.any_cons, hne, Bool.false_or] at hany
        exact hany
      rcases ih hallrest hanyrest with ⟨i, hi, lp, d, helg, hres, hmin⟩
      refine ⟨i + 1, by simpa using hi, lp, d, by simpa using helg,
        by rw [hstep]; exact hres, ?_⟩
      intro j hj lp2 d2 hj2
      cases j with
      | zero => simp only [List.get] at hj2; rw [helig] at hj2; cases hj2
      | succ j' =>
        have := hmin j' (by simpa using hj) lp2 d2 (by simpa using hj2)
        exact ⟨this.1, fun hlt' => this.2 (by omega)⟩
    · push_neg at hk
      rcases Option.ne_none_iff_exists'.mp hk.1 with ⟨lp0, hlp⟩
      rcases Option.ne_none_iff_exists'.mp hk.2 with ⟨sz, hsz⟩
      have hps := allParseOk_head hlp hsz hall
      rcases Option.isSome_iff_exists.mp hps with ⟨n, hn⟩
      have helig : eligPair target ic = some (lp0, (n - target).natAbs) :=
        eligPair_elig hlp hsz hn
      have hstep := @selectLoop_cons_elig target ic rest lp0 sz n hlp hsz hn
      set d0 := (n - target).natAbs with hd0
      rcases selectLoop_acc_spec target rest lp0 d0 hallrest with
        ⟨hres, hmin⟩ | ⟨i, hi, lp, d, helg, hres, hlt, hmin⟩
      · refine ⟨0, by simp, lp0, d0, by simpa using helig,
          by rw [hstep]; exact hres, ?_⟩
        intro j hj lp2 d2 hj2
        cases j with
        | zero =>
          simp only [List.get] at hj2
          rw [helig] at hj2
          cases hj2
          exact ⟨le_refl _, by omega⟩
        | succ j' =>
          have := hmin j' (by simpa using hj) lp2 d2 (by simpa using hj2)
          exact ⟨this, by omega⟩
      · refine ⟨i + 1, by simpa using hi, lp, d, by simpa using helg,
          by rw [hstep]; exact hres, ?_⟩
        intro j hj lp2 d2 hj2
        cases j with
        | zero =>
          simp only [List.get] at hj2
          rw [helig] at hj2
          cases hj2
          exact ⟨by omega, fun _ => hlt⟩
        | succ j' =>
          have := hmin j' (by simpa using hj) lp2 d2 (by simpa using hj2)
          exact ⟨this.1, fun hlt' => this.2 (by omega)⟩

/-- Under `allParseOk`, the selection loop never raises, from any
accumulator. -/
theorem selectLoop_ok (target : Int) :
    ∀ (icons : List Icon), allParseOk icons = true →
    ∀ best, ∃ v, selectLoop target icons best = .ok v := by
  intro icons
  induction icons with
  | nil => intro _ best; exact ⟨best.map Prod.fst, rfl⟩
  | cons ic rest ih =>
    intro hall best
    have hallrest : allParseOk rest = true := allParseOk_cons hall
    by_cases hk : ic.local_path = none ∨ ic.sizes = none
    · rw [selectLoop_cons_skip hk best]
      exact ih hallrest best
    · push_neg at hk
      rcases Option.ne_none_iff_exists'.mp hk.1 with ⟨lp0, hlp⟩
      rcases Option.ne_none_iff_exists'.mp hk.2 with ⟨sz, hsz⟩
      have hps := allParseOk_head hlp hsz hall
      rcases Option.isSome_iff_exists.mp hps with ⟨n, hn⟩
      cases best with
      | none =>
        rw [selectLoop_cons_elig hlp hsz hn]
        exact ih hallrest _
      | some b =>
        rw [@selectLoop_cons_elig_acc target ic rest lp0 sz b.1 n b.2 hlp hsz hn]
        exact ih hallrest _

/-- A descriptor missing `local_path` or missing `sizes` is skipped: it
does not change the selection result. -/
theorem get_icon_for_size_skip (icons : List Icon) (target : Int) {ic : Icon}
    (hk : ic.local_path = none ∨ ic.sizes = none) :
    get_icon_for_size (ic :: icons) target = get_icon_for_size icons target := by
  unfold get_icon_for_size
  rw [if_neg (by simp)]
  rw [selectLoop_cons_skip hk none]
  cases icons with
  | nil => rfl
  | cons ic2 rest => rw [if_neg (by simp)]

/-- The selection loop on a catalog in which every descriptor lacks
`local_path` or `sizes` returns the accumulator unchanged. -/
theorem selectLoop_all_skip (target : Int) :
    ∀ (icons : List Icon), (icons.all (fun ic => ic.local_path.isNone || ic.sizes.isNone)) = true →
    ∀ best, selectLoop target icons best = .ok (best.map Prod.fst) := by
  intro icons
  induction icons with
  | nil => intro _ best; rfl
  | cons ic rest ih =>
    intro hall best
    simp only [List.all_cons, Bool.and_eq_true, Bool.or_eq_true, Option.isNone_iff_eq_none] at hall
    rw [selectLoop_cons_skip hall.1 best]
    exact ih hall.2 best

/-- Catalog of claim C1's counterexample: the second descriptor is
eligible (`local_path` set, `sizes = "48x48"`), but the first descriptor
carries `local_path` together with the unparseable `sizes = "any"`. -/
def c1CxIcons : List Icon :=
  [⟨some "/i/mask.png".toList, some "any".toList, some "dist/icons/icon_any.png".toList⟩,
   ⟨some "/i/48.png".toList, some "48x48".toList, some "dist/icons/icon_48.png".toList⟩]

/-- C1 is false as stated: on a catalog with an eligible descriptor (so the
claim promises the minimizing `local_path`), `get_icon_for_size` instead
raises `ValueError` because an ineligible descriptor's `sizes = "any"` is
fed to `int()`. -/
theorem c1_counterexample :
    c1CxIcons.any eligibleB = true ∧
    ¬ selectsBestMatch c1CxIcons 48 (get_icon_for_size c1CxIcons 48) := by
  constructor
  · rfl
  · intro h
    obtain ⟨i, hi, lp, d, _, hr, _⟩ := h
    have hres : get_icon_for_size c1CxIcons 48 = .error .valueError := rfl
    rw [hres] at hr
    exact Except.noConfusion hr

/-- C1 (amended): on every catalog containing an eligible descriptor in
which, additionally, every descriptor that has both `local_path` and
`sizes` set has a parseable width, `get_icon_for_size` returns the
`local_path` of the eligible descriptor minimizing `|nominalSize - target|`,
the earliest eligible descriptor winning ties (a later candidate replaces
the best only on strictly smaller distance). -/
theorem c1_selects_best_match (icons : List Icon) (target : Int)
    (hp : allParseOk icons = true) (he : icons.any eligibleB = true) :
    selectsBestMatch icons target (get_icon_for_size icons target) := by
  have hne : icons.isEmpty = false := by
    cases icons with
    | nil => simp at he
    | cons ic rest => rfl
  unfold get_icon_for_size
  rw [hne]
  simp only [Bool.false_eq_true, if_false]
  exact selectLoop_none_spec target icons hp he

/-- Catalog of the specification's worked example: nominal sizes 48, 96,
144, all downloaded. -/
def c1WitnessIcons : List Icon :=
  [⟨some "/i/48.png".toList, some "48x48".toList, some "dist/icons/icon_48.png".toList⟩,
   ⟨some "/i/96.png".toList, some "96x96".toList, some "dist/icons/icon_96.png".toList⟩,
   ⟨some "/i/144.png".toList, some "144x144".toList, some "dist/icons/icon_144.png".toList⟩]

/-- Witness for C1's amended theorem at the spec's example (target 100 over
sizes 48/96/144). -/
theorem c1_selects_best_match_witness :
    selectsBestMatch c1WitnessIcons 100 (get_icon_for_size c1WitnessIcons 100) :=
  c1_selects_best_match c1WitnessIcons 100 (by rfl) (by rfl)

/-- Catalog of claim C2's counterexample: a single descriptor with
`local_path` set and the unparseable `sizes = "any"`. -/
def c2CxIcons : List Icon :=
  [⟨some "/assets/adaptive.png".toList, some "any".toList,
    some "dist/icons/icon_any.png".toList⟩]

/-- C2 is false as stated: a descriptor whose `sizes` string is present but
not parseable as an integer width is not skipped; `get_icon_for_size`
raises `ValueError` on it. -/
theorem c2_counterexample :
    get_icon_for_size c2CxIcons 180 = .error .valueError := rfl

/-- C2 (amended): `get_icon_for_size` never raises provided every
descriptor that has both `local_path` and `sizes` set has a parseable
width; a descriptor missing `local_path` or missing `sizes` is skipped
without affecting the result. -/
theorem c2_no_raise (icons : List Icon) (target : Int) (ic : Icon)
    (hp : allParseOk icons = true) (hk : ic.local_path = none ∨ ic.sizes = none) :
    (∃ v, get_icon_for_size icons target = .ok v) ∧
    get_icon_for_size (ic :: icons) target = get_icon_for_size icons target := by
  constructor
  · unfold get_icon_for_size
    cases icons with
    | nil => exact ⟨none, rfl⟩
    | cons ic2 rest =>
      rw [if_neg (by simp)]
      exact selectLoop_ok target _ hp none
  · exact get_icon_for_size_skip icons target hk

/-- Witness for C2's amended theorem: a catalog with one eligible and one
keyless descriptor, plus a skipped descriptor in front. -/
theorem c2_no_raise_witness :
    (∃ v, get_icon_for_size c1WitnessIcons 96 = .ok v) ∧
    get_icon_for_size (⟨some "/i/x.png".toList, none, none⟩ :: c1WitnessIcons) 96 =
      get_icon_for_size c1WitnessIcons 96 :=
  c2_no_raise c1WitnessIcons 96 ⟨some "/i/x.png".toList, none, none⟩ (by rfl) (Or.inl rfl)

/-- Catalog of claim C5's counterexample: no descriptor is eligible (the
only one has an unparseable `sizes`), yet the claim promises `None`. -/
def c5CxIcons : List Icon :=
  [⟨some "/favicon.svg".toList, some "any".toList, some "dist/icons/icon_any.svg".toList⟩]

/-- C5 is false as stated: on a non-empty catalog with no eligible
descriptor, `get_icon_for_size` can raise `ValueError` instead of
returning `None`. -/
theorem c5_counterexample :
    c5CxIcons.any eligibleB = false ∧
    get_icon_for_size c5CxIcons 512 = .error .valueError := ⟨rfl, rfl⟩

/-- C5 (amended): `get_icon_for_size` returns `None` when the catalog is
empty or every descriptor lacks `local_path` or lacks `sizes` (a
descriptor with both keys but unparseable `sizes` instead raises); the
caller then skips icon generation for that role. -/
theorem c5_returns_none (icons : List Icon) (target : Int)
    (h : (icons.all (fun ic => ic.local_path.isNone || ic.sizes.isNone)) = true) :
    get_icon_for_size icons target = .ok none := by
  unfold get_icon_for_size
  cases icons with
  | nil => rfl
  | cons ic rest =>
    rw [if_neg (by simp)]
    exact selectLoop_all_skip target _ h none

/-- Witness for C5's amended theorem: a non-empty catalog in which every
descriptor is missing `local_path` or `sizes`. -/
theorem c5_returns_none_witness :
    get_icon_for_size
      [⟨some "/i/a.png".toList, some "72x72".toList, none⟩,
       ⟨some "/i/b.png".toList, none, some "dist/icons/icon_unknown.png".toList⟩] 72 =
      .ok none :=
  c5_returns_none _ 72 (by rfl)

/-- An RGBA pixel, channels 0..255. -/
structure RGBA where
  r : Nat
  g : Nat
  b : Nat
  a : Nat
  deriving DecidableEq, Repr

/-- A decoded raster image: dimensions plus a total pixel function (only
the values at `x < width`, `y < height` are meaningful). -/
structure Img where
  width : Nat
  height : Nat
  px : Nat → Nat → RGBA

/-- Content of a file written by the pipeline: a decoded still image, a
multi-frame icon container, or raw downloaded bytes. -/
inductive FileData where
  | png (m : Img)
  | ico (frames : List Img)
  | raw (bytes : List Nat)

/-- The file system, as a map from path to file content. -/
abbrev Store := Str → Option FileData

def setStore (st : Store) (p : Str) (v : FileData) : Store :=
  fun q => if q = p then some v else st q

/-- Write a list of files in order (later writes to the same path win,
like `open(path, 'wb')`). -/
def writeAll (st : Store) : List (Str × FileData) → Store
  | [] => st
  | w :: ws => writeAll (setStore st w.1 w.2) ws

/-- Model of the external imaging library: `Image.new(mode, (w, h), color)`,
a constant-colour canvas. -/
def constImg (w h : Nat) (c : RGBA) : Img := ⟨w, h, fun _ _ => c⟩

/-- Model of the external imaging library: `Image.resize((w, h))`, a direct
resize (aspect ratio not preserved); resampling is modelled as
nearest-neighbour sampling — the geometric claims proved below do not
depend on resample weights. -/
def resize (img : Img) (w h : Nat) : Img :=
  ⟨w, h, fun x y => img.px (x * img.width / w) (y * img.height / h)⟩

/-- Model of the external imaging library: `ImageOps.fit(img, (w, h))`,
crop-to-fill — the largest centered region of the target aspect ratio is
cropped, then resized (for the square targets used here: the centered
largest square); resampling modelled as nearest-neighbour sampling. -/
def fit (img : Img) (w h : Nat) : Img :=
  let side := min img.width img.height
  let x0 := (img.width - side) / 2
  let y0 := (img.height - side) / 2
  ⟨w, h, fun x y => img.px (x0 + x * side / w) (y0 + y * side / h)⟩

/-- Model of the external imaging library: `dst.paste(src, (ox, oy))` —
pixels inside the pasted region are replaced (alpha included), the rest of
`dst` is kept. -/
def paste (dst src : Img) (ox oy : Nat) : Img :=
  ⟨dst.width, dst.height, fun x y =>
    if ox ≤ x ∧ x < ox + src.width ∧ oy ≤ y ∧ y < oy + src.height then
      src.px (x - ox) (y - oy)
    else dst.px x y⟩

/-- Model of the external imaging library: `img.putalpha(mask)` — the alpha
band is replaced wholesale by the mask. -/
def putalpha (img : Img) (mask : Nat → Nat → Nat) : Img :=
  ⟨img.width, img.height, fun x y =>
    ⟨(img.px x y).r, (img.px x y).g, (img.px x y).b, mask x y⟩⟩

/-- Whether pixel `(x, y)` lies inside the ellipse drawn by
`ImageDraw.ellipse([0, 0, S, S])` on an S×S mask, tested at pixel centres. -/
def inCircle (S x y : Nat) : Bool :=
  decide ((2 * (x : Int) + 1 - S) ^ 2 + (2 * (y : Int) + 1 - S) ^ 2 ≤ (S : Int) ^ 2)

/-- Model of the external imaging library: the circular 'L' mask the code
draws with `draw.ellipse([0, 0, desired_size, desired_size], fill=255)`. -/
def circleMask (S : Nat) (x y : Nat) : Nat := if inCircle S x y then 255 else 0

/-- Model of the external imaging library: the rounded-rectangle 'L' mask
drawn with `draw.rounded_rectangle([0, 0, t, t], radius=r, fill=255)`:
a pixel is filled when its clamped distance to the rectangle core is
within the corner radius. -/
def roundedRectMask (t r : Nat) (x y : Nat) : Nat :=
  let dx : Int := max ((r : Int) - x) (max 0 ((x : Int) - ((t : Int) - r)))
  let dy : Int := max ((r : Int) - y) (max 0 ((y : Int) - ((t : Int) - r)))
  if dx ^ 2 + dy ^ 2 ≤ (r : Int) ^ 2 then 255 else 0

/-- Model of the external imaging library: `Image.alpha_composite(bg, fg)`
per pixel — Porter-Duff "over" on 0..255 channels (exact at the alpha
values 0 and 255, the only ones produced by the code's binary masks). -/
def alphaOver (fg bg : RGBA) : RGBA :=
  let oa := fg.a + bg.a * (255 - fg.a) / 255
  if oa = 0 then ⟨0, 0, 0, 0⟩
  else
    ⟨(fg.r * fg.a * 255 + bg.r * (bg.a * (255 - fg.a))) / (oa * 255),
     (fg.g * fg.a * 255 + bg.g * (bg.a * (255 - fg.a))) / (oa * 255),
     (fg.b * fg.a * 255 + bg.b * (bg.a * (255 - fg.a))) / (oa * 255),
     oa⟩

/-- Model of the external imaging library: `Image.alpha_composite`. -/
def alpha_composite (bg fg : Img) : Img :=
  ⟨bg.width, bg.height, fun x y => alphaOver (fg.px x y) (bg.px x y)⟩

/-- Hex digit value. -/
def hexVal (c : Char) : Option Nat :=
  if '0' ≤ c ∧ c ≤ '9' then some (c.toNat - '0'.toNat)
  else if 'a' ≤ c ∧ c ≤ 'f' then some (c.toNat - 'a'.toNat + 10)
  else if 'A' ≤ c ∧ c ≤ 'F' then some (c.toNat - 'A'.toNat + 10)
  else none

/-- Model of the external imaging library's colour parser as used here:
the `"#RRGGBB"` form (the only form this repository's manifests and
defaults produce); anything else is treated as unparseable and raises. -/
def pilColor (s : Str) : Option (Nat × Nat × Nat) :=
  match s with
  | ['#', r1, r2, g1, g2, b1, b2] =>
    match hexVal r1, hexVal r2, hexVal g1, hexVal g2, hexVal b1, hexVal b2 with
    | some a1, some a2, some a3, some a4, some a5, some a6 =>
      some (16 * a1 + a2, 16 * a3 + a4, 16 * a5 + a6)
    | _, _, _, _, _, _ => none
  | _ => none

/-- Filling an RGBA canvas from a parsed colour: alpha 255. -/
def rgbaOfColor (col : Nat × Nat × Nat) : RGBA := ⟨col.1, col.2.1, col.2.2, 255⟩

/-- `background_color` as parsed from the manifest
(`PWAPackager._parse_manifest`, `src/pwa2native/packager/base.py` line 55):
the manifest value, defaulting to `"#FFFFFF"`. -/
def manifest_background_color (m : Option Str) : Str := m.getD "#FFFFFF".toList

/-- A Python value flowing into the `/` path-join operator: either a
`pathlib.Path` or a plain `str`. -/
inductive PyVal where
  | path (p : Str)
  | str (s : Str)

/-- Python `a / b` with `b` a `str`: defined for `Path` operands, raises
`TypeError` for `str` operands. -/
def pyTruediv : PyVal → Str → Except PyErr Str
  | .path p, n => .ok (p ++ '/' :: n)
  | .str _, _ => .error .typeError

/-- `IconProcessor.process_android_icon` (`src/pwa2native/utils/icons.py`
lines 68-109). `source_icon` is given as the decoded source image (`none`
when `Image.open` raises); `int(desired_size * 0.75)` equals
`3 * size / 4` exactly (0.75 is a dyadic float). Any exception inside the
`try` — including the `TypeError` raised by `mipmap_dir / "..."` when a
`str` was passed, and the `ValueError` of an unparseable background
colour — yields `False`, with only the files already saved on disk. -/
def process_android_icon (source_icon : Option Img) (mipmap_dir : PyVal) (size : Nat)
    (background_color : Str) : Bool × List (Str × FileData) :=
  match source_icon with
  | none => (false, [])
  | some img0 =>
    let fitted := fit img0 (3 * size / 4) (3 * size / 4)
    let offset := (size - fitted.width) / 2
    let foreground := putalpha (paste (constImg size size ⟨0, 0, 0, 0⟩) fitted offset offset)
      (circleMask size)
    match pyTruediv mipmap_dir "ic_launcher_foreground.png".toList with
    | .error _ => (false, [])
    | .ok p1 =>
      match pilColor background_color with
      | none => (false, [(p1, .png foreground)])
      | some col =>
        let background := constImg size size (rgbaOfColor col)
        match pyTruediv mipmap_dir "ic_launcher_background.png".toList with
        | .error _ => (false, [(p1, .png foreground)])
        | .ok p2 =>
          let final_icon := alpha_composite background foreground
          match pyTruediv mipmap_dir "ic_launcher.png".toList with
          | .error _ => (false, [(p1, .png foreground), (p2, .png background)])
          | .ok p3 =>
            (true, [(p1, .png foreground), (p2, .png background), (p3, .png final_icon)])

/-- The Android density table of `AndroidPackager._process_android_icon`
(`src/pwa2native/packager/android.py` lines 156-162; identical in
`src/pwa2native.py` lines 267-273). -/
def android_densities : List (Str × Nat) :=
  [("mdpi".toList, 48), ("hdpi".toList, 72), ("xhdpi".toList, 96),
   ("xxhdpi".toList, 144), ("xxxhdpi".toList, 192)]

/-- `AndroidPackager._process_android_icon`
(`src/pwa2native/packager/android.py` lines 152-173): for every density it
passes `str(output_path)` — a plain string — as the `mipmap_dir` argument
of `IconProcessor.process_android_icon`. Returns the per-density results
and the concatenation of all files written. -/
def process_android_icon_all (source_icon : Option Img) (res_dir : Str)
    (background_color : Str) : List Bool × List (Str × FileData) :=
  let runs := android_densities.map (fun dsz =>
    process_android_icon source_icon
      (.str (res_dir ++ "/mipmap-".toList ++ dsz.1 ++ "/ic_launcher.png".toList))
      dsz.2 background_color)
  (runs.map Prod.fst, runs.foldr (fun r acc => r.2 ++ acc) [])

/-- `IconProcessor.process_macos_icon` (`src/pwa2native/utils/icons.py`
lines 111-148; identical to `PWAPackager._process_macos_icon` in
`src/pwa2native.py` lines 219-259). `int(size * 0.8)` equals
`4 * size / 5` for every size reachable here (the float product never
crosses an integer boundary). -/
def process_macos_icon (source_icon : Option Img) (output_path : Str) (size : Nat) :
    Bool × List (Str × FileData) :=
  match source_icon with
  | none => (false, [])
  | some img0 =>
    let target_size := 4 * size / 5
    let img1 := resize img0 target_size target_size
    let padding := (size - target_size) / 2
    let radius := target_size / 4
    let img2 := putalpha img1 (roundedRectMask target_size radius)
    let padded := paste (constImg size size ⟨0, 0, 0, 0⟩) img2 padding padding
    (true, [(output_path, .png padded)])

/-- Modelled from the spec: `IconProcessor.process_ios_icon` is invoked by
`IOSPackager._process_ios_icons` (`src/pwa2native/packager/ios.py` line
117) but is defined nowhere in the sources. Per spec §4.3 (iOS transform),
the source is converted to RGBA, crop-to-fill fitted into exactly
`targetSize × targetSize`, a rounded-corner mask is prepared but not
applied, the plain fitted square is written, and any error is a soft
failure returning `False`. -/
def process_ios_icon (source_icon : Option Img) (output_path : Str) (size : Nat) :
    Bool × List (Str × FileData) :=
  match source_icon with
  | none => (false, [])
  | some img0 => (true, [(output_path, .png (fit img0 size size))])

/-- The frame sizes of `WindowsPackager._process_windows_icon`'s ICO export
(`src/pwa2native/packager/windows.py` line 69). -/
def windows_ico_sizes : List Nat := [16, 32, 48, 256]

/-- `WindowsPackager._process_windows_icon`
(`src/pwa2native/packager/windows.py` lines 64-72): the source is exported
as a multi-resolution ICO container; the library's multi-size export is
modelled as one resized frame per requested size. -/
def process_windows_icon (source_icon : Option Img) (output_path : Str) :
    Bool × List (Str × FileData) :=
  match source_icon with
  | none => (false, [])
  | some img0 =>
    (true, [(output_path, .ico (windows_ico_sizes.map (fun s => resize img0 s s)))])

/-- C3: the iOS transform (spec-modelled `process_ios_icon`, invoked once
per required pixel size by `_process_ios_icons`) totalises to a boolean —
it cannot raise out of the per-size call — and on success writes exactly
one output image of exactly `size × size` pixels regardless of the source
image's aspect ratio; an unreadable source is a soft failure writing
nothing. -/
theorem c3_ios_square_fit (img : Img) (output_path : Str) (size : Nat) :
    process_ios_icon (some img) output_path size =
      (true, [(output_path, .png (fit img size size))]) ∧
    (fit img size size).width = size ∧
    (fit img size size).height = size ∧
    process_ios_icon none output_path size = (false, []) :=
  ⟨rfl, rfl, rfl, rfl⟩

/-- C4: the modular Android packager hands `process_android_icon` a plain
string where its `mipmap_dir` parameter is used as a directory, so
`mipmap_dir / "ic_launcher_foreground.png"` raises `TypeError`, the
per-operation handler turns every such call into `False`, and no
foreground, background, or composite icon file is written for any
density. -/
theorem c4_android_modular_noop (source_icon : Option Img) (res_dir s bg : Str) (size : Nat) :
    process_android_icon source_icon (.str s) size bg = (false, []) ∧
    process_android_icon_all source_icon res_dir bg =
      ([false, false, false, false, false], []) := by
  cases source_icon with
  | none => exact ⟨rfl, rfl⟩
  | some img => exact ⟨rfl, rfl⟩

/-- The content found at path `q` after a write list: the last write to
`q`, if any. -/
def lastWrite : List (Str × FileData) → Str → Option FileData
  | [], _ => none
  | w :: ws, q =>
    match lastWrite ws q with
    | some v => some v
    | none => if w.1 = q then some w.2 else none

theorem writeAll_eq (ws : List (Str × FileData)) :
    ∀ (st : Store) (q : Str),
    writeAll st ws q = match lastWrite ws q with | some v => some v | none => st q := by
  induction ws with
  | nil => intro st q; rfl
  | cons w ws ih =>
    intro st q
    show writeAll (setStore st w.1 w.2) ws q = _
    rw [ih]
    cases hl : lastWrite ws q with
    | some v => simp only [lastWrite, hl]
    | none =>
      simp only [lastWrite, hl, setStore]
      by_cases hq : w.1 = q
      · rw [if_pos hq, if_pos (by rw [hq])]
      · rw [if_neg hq, if_neg (by intro h; exact hq h.symm)]

/-- Re-running the same write list leaves the file store unchanged. -/
theorem writeAll_twice (ws : List (Str × FileData)) (st : Store) :
    writeAll (writeAll st ws) ws = writeAll st ws := by
  funext q
  rw [writeAll_eq, writeAll_eq]
  cases lastWrite ws q <;> rfl

/-- C10: every platform transform is deterministic and idempotent at the
file level. Each transform is embedded as a pure function of the decoded
source, output location, target size and background colour — there is no
randomness or clock in its data flow — so two runs produce identical
write lists, and replaying a run's writes over its own output leaves the
file store byte-for-byte unchanged. -/
theorem c10_transforms_idempotent (st : Store) (source_icon : Option Img)
    (d p q w bg : Str) (size : Nat) :
    writeAll (writeAll st (process_android_icon source_icon (.path d) size bg).2)
        (process_android_icon source_icon (.path d) size bg).2 =
      writeAll st (process_android_icon source_icon (.path d) size bg).2 ∧
    writeAll (writeAll st (process_macos_icon source_icon p size).2)
        (process_macos_icon source_icon p size).2 =
      writeAll st (process_macos_icon source_icon p size).2 ∧
    writeAll (writeAll st (process_ios_icon source_icon q size).2)
        (process_ios_icon source_icon q size).2 =
      writeAll st (process_ios_icon source_icon q size).2 ∧
    writeAll (writeAll st (process_windows_icon source_icon w).2)
        (process_windows_icon source_icon w).2 =
      writeAll st (process_windows_icon source_icon w).2 :=
  ⟨writeAll_twice _ _, writeAll_twice _ _, writeAll_twice _ _, writeAll_twice _ _⟩

theorem paste_inside (dst src : Img) (ox oy x y : Nat) (h1 : ox ≤ x)
    (h2 : x < ox + src.width) (h3 : oy ≤ y) (h4 : y < oy + src.height) :
    (paste dst src ox oy).px x y = src.px (x - ox) (y - oy) := by
  simp only [paste]
  rw [if_pos ⟨h1, h2, h3, h4⟩]

theorem paste_outside (dst src : Img) (ox oy x y : Nat)
    (h : ¬(ox ≤ x ∧ x < ox + src.width ∧ oy ≤ y ∧ y < oy + src.height)) :
    (paste dst src ox oy).px x y = dst.px x y := by
  simp only [paste]
  rw [if_neg h]

theorem alphaOver_transparent (p b : RGBA) (hp : p.a = 0) (hb : b.a = 255) :
    alphaOver p b = b := by
  obtain ⟨pr, pg, pb, pa⟩ := p
  obtain ⟨br, bg, bb, ba⟩ := b
  have hpa : pa = 0 := hp
  have hba : ba = 255 := hb
  subst hpa hba
  simp only [alphaOver]
  split
  next h => exact absurd h (by norm_num)
  next h =>
    simp only [RGBA.mk.injEq]
    refine ⟨?_, ?_, ?_, ?_⟩ <;> norm_num

theorem alphaOver_solid (p b : RGBA) (hp : p.a = 255) :
    alphaOver p b = ⟨p.r, p.g, p.b, 255⟩ := by
  obtain ⟨pr, pg, pb, pa⟩ := p
  obtain ⟨br, bg, bb, ba⟩ := b
  have hpa : pa = 255 := hp
  subst hpa
  simp only [alphaOver]
  split
  next h => exact absurd h (by norm_num)
  next h =>
    simp only [RGBA.mk.injEq]
    refine ⟨?_, ?_, ?_, ?_⟩ <;> (norm_num <;> omega)

/-- For canvases of side at least 4, the four corner pixels lie outside
the inscribed circle. -/
theorem inCircle_corner (S : Nat) (h4 : 4 ≤ S) :
    inCircle S 0 0 = false ∧ inCircle S (S - 1) 0 = false ∧
    inCircle S 0 (S - 1) = false ∧ inCircle S (S - 1) (S - 1) = false := by
  have hS4 : (4 : Int) ≤ (S : Int) := by exact_mod_cast h4
  have hcast : ((S - 1 : Nat) : Int) = (S : Int) - 1 := by
    rw [Nat.cast_sub (by omega)]
    norm_num
  unfold inCircle
  refine ⟨?_, ?_, ?_, ?_⟩
  · rw [decide_eq_false_iff_not]
    intro hcon
    norm_num at hcon
    nlinarith [hS4, sq_nonneg ((S : Int) - 4)]
  · rw [decide_eq_false_iff_not, hcast]
    intro hcon
    norm_num at hcon
    nlinarith [hS4, sq_nonneg ((S : Int) - 4)]
  · rw [decide_eq_false_iff_not, hcast]
    intro hcon
    norm_num at hcon
    nlinarith [hS4, sq_nonneg ((S : Int) - 4)]
  · rw [decide_eq_false_iff_not, hcast]
    intro hcon
    nlinarith [hS4, sq_nonneg ((S : Int) - 4)]

/-- For canvases of side at least 2, the centre pixel lies inside the
inscribed circle. -/
theorem inCircle_center (S : Nat) (h2 : 2 ≤ S) : inCircle S (S / 2) (S / 2) = true := by
  unfold inCircle
  rw [decide_eq_true_eq]
  have hk1 : 2 * (S / 2) ≤ S := by omega
  have hk2 : S ≤ 2 * (S / 2) + 1 := by omega
  have h1 : 2 * ((S / 2 : Nat) : Int) ≤ (S : Int) := by exact_mod_cast hk1
  have h2' : (S : Int) ≤ 2 * ((S / 2 : Nat) : Int) + 1 := by exact_mod_cast hk2
  have hS : (2 : Int) ≤ (S : Int) := by exact_mod_cast h2
  have hd0 : 0 ≤ 2 * ((S / 2 : Nat) : Int) + 1 - (S : Int) := by omega
  have hd1 : 2 * ((S / 2 : Nat) : Int) + 1 - (S : Int) ≤ 1 := by omega
  have hsq : (2 * ((S / 2 : Nat) : Int) + 1 - (S : Int)) ^ 2 ≤ 1 := by nlinarith
  nlinarith [hS]

/-- The red-green-blue content of a pixel, alpha excluded. -/
def rgbOf (c : RGBA) : Nat × Nat × Nat := (c.r, c.g, c.b)

/-- The Android adaptive-icon output contract of claim C6, for one call at
target size `S` with decoded source `img` and parsed background colour
`col`: three files are written (foreground, background, composite), all
exactly S×S; the background is the flat manifest colour; the foreground's
alpha band is the circular mask of diameter S; inside the centred
`floor(0.75·S)` square the foreground carries the crop-to-fill fitted
source; the composite is background where the mask is empty — in
particular at all four corners — and fitted source content at the
centre. -/
def androidAdaptiveSpec (S : Nat) (img : Img) (col : Nat × Nat × Nat) (dir : Str)
    (out : Bool × List (Str × FileData)) : Prop :=
  let fsz := 3 * S / 4
  let off := (S - fsz) / 2
  let F := fit img fsz fsz
  let c := rgbaOfColor col
  ∃ FG BG CP : Img,
    out = (true, [(dir ++ '/' :: "ic_launcher_foreground.png".toList, .png FG),
                  (dir ++ '/' :: "ic_launcher_background.png".toList, .png BG),
                  (dir ++ '/' :: "ic_launcher.png".toList, .png CP)]) ∧
    FG.width = S ∧ FG.height = S ∧ BG.width = S ∧ BG.height = S ∧
    CP.width = S ∧ CP.height = S ∧
    (∀ x y, BG.px x y = c) ∧
    (∀ x y, (FG.px x y).a = circleMask S x y) ∧
    (∀ x y, off ≤ x → x < off + fsz → off ≤ y → y < off + fsz →
      rgbOf (FG.px x y) = rgbOf (F.px (x - off) (y - off))) ∧
    (∀ x y, inCircle S x y = false → CP.px x y = c) ∧
    CP.px 0 0 = c ∧ CP.px (S - 1) 0 = c ∧ CP.px 0 (S - 1) = c ∧ CP.px (S - 1) (S - 1) = c ∧
    rgbOf (CP.px (S / 2) (S / 2)) = rgbOf (F.px (S / 2 - off) (S / 2 - off)) ∧
    (CP.px (S / 2) (S / 2)).a = 255

/-- The Android transform satisfies its output contract at every target
size of at least 4 pixels. -/
theorem android_adaptive_spec_holds (S : Nat) (h4 : 4 ≤ S) (img : Img) (bg : Str)
    (col : Nat × Nat × Nat) (hc : pilColor bg = some col) (dir : Str) :
    androidAdaptiveSpec S img col dir (process_android_icon (some img) (.path dir) S bg) := by
  unfold androidAdaptiveSpec
  simp only [process_android_icon, pyTruediv, hc]
  refine ⟨_, _, _, rfl, rfl, rfl, rfl, rfl, rfl, rfl,
    fun x y => rfl, fun x y => rfl, ?_, ?_, ?_, ?_, ?_, ?_, ?_, ?_⟩
  · intro x y h1 h2 h3 h4'
    simp only [putalpha, rgbOf]
    rw [paste_inside (constImg S S ⟨0, 0, 0, 0⟩) (fit img (3 * S / 4) (3 * S / 4))
      ((S - (fit img (3 * S / 4) (3 * S / 4)).width) / 2)
      ((S - (fit img (3 * S / 4) (3 * S / 4)).width) / 2) x y
      (by exact h1) (by exact h2) (by exact h3) (by exact h4')]
    rfl
  · intro x y h0
    exact alphaOver_transparent _ _ (by simp [putalpha, circleMask, h0]) rfl
  · exact alphaOver_transparent _ _
      (by simp [putalpha, circleMask, (inCircle_corner S h4).1]) rfl
  · exact alphaOver_transparent _ _
      (by simp [putalpha, circleMask, (inCircle_corner S h4).2.1]) rfl
  · exact alphaOver_transparent _ _
      (by simp [putalpha, circleMask, (inCircle_corner S h4).2.2.1]) rfl
  · exact alphaOver_transparent _ _
      (by simp [putalpha, circleMask, (inCircle_corner S h4).2.2.2]) rfl
  · have hcen := inCircle_center S (by omega)
    simp only [alpha_composite]
    rw [alphaOver_solid _ _ (by simp [putalpha, circleMask, hcen])]
    simp only [putalpha, rgbOf]
    rw [paste_inside (constImg S S ⟨0, 0, 0, 0⟩) (fit img (3 * S / 4) (3 * S / 4))
      ((S - (fit img (3 * S / 4) (3 * S / 4)).width) / 2)
      ((S - (fit img (3 * S / 4) (3 * S / 4)).width) / 2) (S / 2) (S / 2)
      (by show (S - 3 * S / 4) / 2 ≤ S / 2; omega)
      (by show S / 2 < (S - 3 * S / 4) / 2 + 3 * S / 4; omega)
      (by show (S - 3 * S / 4) / 2 ≤ S / 2; omega)
      (by show S / 2 < (S - 3 * S / 4) / 2 + 3 * S / 4; omega)]
    rfl
  · have hcen := inCircle_center S (by omega)
    simp only [alpha_composite]
    rw [alphaOver_solid _ _ (by simp [putalpha, circleMask, hcen])]

/-- C6: at every Android density size of the driver's table, for every
source image, parsed manifest background colour, and output directory,
the Android transform writes foreground, background and composite layers
that are all exactly S×S; the source is crop-to-fill fitted into a square
of side `floor(0.75*S)` centred in a transparent S×S canvas; the circular
alpha mask of diameter S is the foreground's alpha band; the background is
a flat canvas of the manifest `background_color` (default `#FFFFFF` parses
to white); the composite shows the background colour at all four corners
and the fitted source content at the centre. -/
theorem c6_android_adaptive (S : Nat) (hS : S ∈ android_densities.map Prod.snd)
    (img : Img) (bg : Str) (col : Nat × Nat × Nat) (hc : pilColor bg = some col) (dir : Str) :
    androidAdaptiveSpec S img col dir (process_android_icon (some img) (.path dir) S bg) ∧
    pilColor (manifest_background_color none) = some (255, 255, 255) := by
  have h4 : 4 ≤ S := by
    simp only [android_densities, List.map_cons, List.map_nil, List.mem_cons,
      List.not_mem_nil, or_false] at hS
    rcases hS with rfl | rfl | rfl | rfl | rfl <;> norm_num
  exact ⟨android_adaptive_spec_holds S h4 img bg col hc dir, rfl⟩

/-- A small concrete source image for the witnesses. -/
def testSourceImg : Img :=
  ⟨2, 2, fun x y => if x = 0 ∧ y = 0 then ⟨200, 10, 10, 255⟩ else ⟨10, 20, 30, 255⟩⟩

/-- Witness for C6 at density `xxhdpi` (144 px) with the spec's example
background colour `#112233`. -/
theorem c6_android_adaptive_witness :
    androidAdaptiveSpec 144 testSourceImg (17, 34, 51)
      "dist/android/app/src/main/res/mipmap-xxhdpi".toList
      (process_android_icon (some testSourceImg)
        (.path "dist/android/app/src/main/res/mipmap-xxhdpi".toList) 144 "#112233".toList) ∧
    pilColor (manifest_background_color none) = some (255, 255, 255) :=
  c6_android_adaptive 144 (by decide) testSourceImg "#112233".toList (17, 34, 51) (by rfl)
    "dist/android/app/src/main/res/mipmap-xxhdpi".toList

/-- The macOS output layout actually produced (claim C7 as amended): one
S×S output; the resized content occupies exactly the `floor(0.8*S)` square
pasted at offset `floor((S - floor(0.8*S))/2)` from the left and top (the
right and bottom padding take the remainder, one pixel more when
`S - floor(0.8*S)` is odd); everything outside that square is fully
transparent; inside it, the pixel is the resized source masked by the
rounded-rectangle mask of corner radius `floor(0.8*S)/4`. -/
def macosLayoutSpec (S : Nat) (img : Img) (p : Str) (out : Bool × List (Str × FileData)) : Prop :=
  let t := 4 * S / 5
  let q := (S - t) / 2
  let R := resize img t t
  ∃ M : Img,
    out = (true, [(p, .png M)]) ∧ M.width = S ∧ M.height = S ∧
    (∀ x y, ¬(q ≤ x ∧ x < q + t ∧ q ≤ y ∧ y < q + t) → M.px x y = ⟨0, 0, 0, 0⟩) ∧
    (∀ x y, q ≤ x → x < q + t → q ≤ y → y < q + t →
      M.px x y = ⟨(R.px (x - q) (y - q)).r, (R.px (x - q) (y - q)).g, (R.px (x - q) (y - q)).b,
        roundedRectMask t (t / 4) (x - q) (y - q)⟩)

/-- C7 (amended): the macOS transform always writes exactly one S×S image
with the layout above. -/
theorem c7_macos_layout (S : Nat) (img : Img) (p : Str) :
    macosLayoutSpec S img p (process_macos_icon (some img) p S) := by
  unfold macosLayoutSpec
  simp only [process_macos_icon]
  refine ⟨_, rfl, rfl, rfl, ?_, ?_⟩
  · intro x y h
    rw [paste_outside (constImg S S ⟨0, 0, 0, 0⟩)
      (putalpha (resize img (4 * S / 5) (4 * S / 5)) (roundedRectMask (4 * S / 5) (4 * S / 5 / 4)))
      ((S - 4 * S / 5) / 2) ((S - 4 * S / 5) / 2) x y (by exact h)]
    rfl
  · intro x y h1 h2 h3 h4
    rw [paste_inside (constImg S S ⟨0, 0, 0, 0⟩)
      (putalpha (resize img (4 * S / 5) (4 * S / 5)) (roundedRectMask (4 * S / 5) (4 * S / 5 / 4)))
      ((S - 4 * S / 5) / 2) ((S - 4 * S / 5) / 2) x y
      (by exact h1) (by exact h2) (by exact h3) (by exact h4)]
    rfl

/-- Horizontal mirror symmetry of the alpha layout — a necessary condition
of "content centred with transparent padding of equal width on each
edge". -/
def mirrorSymmetricAlpha (S : Nat) (M : Img) : Prop :=
  ∀ x y, x < S → y < S → (M.px x y).a = (M.px (S - 1 - x) y).a

/-- The single image written by a transform run (for inspecting claim C7's
counterexample). -/
def writtenImg (out : Bool × List (Str × FileData)) : Img :=
  match out.2 with
  | [(_, .png m)] => m
  | _ => constImg 0 0 ⟨0, 0, 0, 0⟩

/-- Source image of C7's counterexample: a 1×1 fully opaque pixel. -/
def c7TestImg : Img := constImg 1 1 ⟨200, 10, 10, 255⟩

def c7TestPath : Str := "dist/macos/icon.iconset/icon_16x16@2x.png".toList

/-- C7 is false as stated at S = 32 (a size the macOS fan-out uses, as
16@2x and as 32@1x): `floor(0.8*32) = 25`, so the content cannot be
centred with padding `(32 - 25)/2` on each edge — the written image has a
3-pixel transparent band on the left (column 2 transparent, column 3
opaque at mid-height) but a 4-pixel band on the right (column 27 opaque,
column 28 transparent), so the alpha layout is not mirror-symmetric. -/
theorem c7_counterexample :
    (process_macos_icon (some c7TestImg) c7TestPath 32).1 = true ∧
    (writtenImg (process_macos_icon (some c7TestImg) c7TestPath 32)).px 2 16 = ⟨0, 0, 0, 0⟩ ∧
    ((writtenImg (process_macos_icon (some c7TestImg) c7TestPath 32)).px 3 16).a = 255 ∧
    ((writtenImg (process_macos_icon (some c7TestImg) c7TestPath 32)).px 27 16).a = 255 ∧
    ((writtenImg (process_macos_icon (some c7TestImg) c7TestPath 32)).px 28 16).a = 0 ∧
    ¬ mirrorSymmetricAlpha 32 (writtenImg (process_macos_icon (some c7TestImg) c7TestPath 32)) := by
  refine ⟨rfl, by decide, by decide, by decide, by decide, ?_⟩
  intro h
  have h1 := h 3 16 (by norm_num) (by norm_num)
  exact absurd h1 (by decide)

/-- Python `src.startswith('http')` (icons.py line 26). -/
def startswith_http (s : Str) : Bool :=
  match s with
  | 'h' :: 't' :: 't' :: 'p' :: _ => true
  | _ => false

/-- Python `src.lstrip('/')`: every leading slash removed. -/
def lstrip_slash (s : Str) : Str := s.dropWhile (fun c => c = '/')

/-- Python `url.rstrip('/')` as applied by `PWAPackager.__init__`
(`src/pwa2native/packager/base.py` line 11). -/
def rstrip_slash (s : Str) : Str := (s.reverse.dropWhile (fun c => c = '/')).reverse

/-- The URL resolution of `download_icons` (icons.py line 26):
`src if src.startswith('http') else f"{self.packager.url}/{src.lstrip('/')}"`. -/
def resolve_icon_url (base src : Str) : Str :=
  if startswith_http src then src else base ++ '/' :: lstrip_slash src

def headIsSlash : Str → Bool
  | [] => false
  | c :: _ => decide (c = '/')

def lastIsSlash (s : Str) : Bool := headIsSlash s.reverse

/-- A character allowed after the first in a URI scheme. -/
def isSchemeChar (c : Char) : Bool := c.isAlphanum || c = '+' || c = '-' || c = '.'

/-- Follows the spec's words for claim C9 ("if it already has a scheme,
use as-is"): whether the string begins with an RFC 3986 scheme — a letter,
then scheme characters, then a colon. Defined for comparison with the
code's `startswith('http')` test. -/
def has_uri_scheme : Str → Bool
  | [] => false
  | c :: rest =>
    c.isAlpha &&
      match rest.drop (rest.takeWhile isSchemeChar).length with
      | ':' :: _ => true
      | _ => false

theorem headIsSlash_dropWhile (s : Str) :
    headIsSlash (s.dropWhile (fun c => c = '/')) = false := by
  induction s with
  | nil => rfl
  | cons c t ih =>
    by_cases hc : c = '/'
    · simp only [List.dropWhile_cons, hc, decide_True]
      exact ih
    · simp [List.dropWhile_cons, hc, headIsSlash]

theorem lastIsSlash_rstrip (s : Str) : lastIsSlash (rstrip_slash s) = false := by
  unfold lastIsSlash rstrip_slash
  rw [List.reverse_reverse]
  exact headIsSlash_dropWhile _

def c9Base : Str := "http://example.com".toList

def c9Src : Str := "ftp://cdn.example.com/icon.png".toList

/-- C9 is false as stated: a source with a scheme other than `http` (here
`ftp:`) is not used as-is — the code only tests `startswith('http')` and
joins everything else onto the base URL. (Conversely a scheme-less path
that merely begins with the letters `http` would be used as-is.) -/
theorem c9_counterexample :
    has_uri_scheme c9Src = true ∧
    resolve_icon_url c9Base c9Src = c9Base ++ '/' :: c9Src ∧
    resolve_icon_url c9Base c9Src ≠ c9Src := by
  refine ⟨rfl, rfl, ?_⟩
  decide

/-- C9 (amended): a source that starts with the four characters `http` is
used as-is; any other source is joined as `base ++ "/" ++ source` with all
leading slashes stripped from the source — and since the caller stripped
the base's trailing slashes, no duplicated slash can appear at the join
(the joined base never ends in `/`, the stripped source never starts
with `/`). -/
theorem c9_url_join (base src : Str) :
    (startswith_http src = true → resolve_icon_url (rstrip_slash base) src = src) ∧
    (startswith_http src = false →
      resolve_icon_url (rstrip_slash base) src =
        rstrip_slash base ++ '/' :: lstrip_slash src ∧
      headIsSlash (lstrip_slash src) = false ∧
      lastIsSlash (rstrip_slash base) = false) := by
  constructor
  · intro h
    simp [resolve_icon_url, h]
  · intro h
    refine ⟨by simp [resolve_icon_url, h], headIsSlash_dropWhile src, lastIsSlash_rstrip base⟩

/-- Witness for C9's amended theorem: relative source `/icons/a.png`
joined onto the base `http://example.com/` (trailing slash stripped by the
caller). -/
theorem c9_url_join_witness :
    resolve_icon_url (rstrip_slash "http://example.com/".toList) "/icons/a.png".toList =
      rstrip_slash "http://example.com/".toList ++ '/' :: lstrip_slash "/icons/a.png".toList ∧
    headIsSlash (lstrip_slash "/icons/a.png".toList) = false ∧
    lastIsSlash (rstrip_slash "http://example.com/".toList) = false :=
  (c9_url_join "http://example.com/".toList "/icons/a.png".toList).2 (by rfl)

/-- The final path component of a path string. -/
def last_component (s : Str) : Str := (s.reverse.takeWhile (fun c => c ≠ '/')).reverse

/-- Model of the external `pathlib.Path(src).suffix`: the extension from
the last dot of the final component, empty when the dot is the first or
last character of that component. -/
def path_suffix (s : Str) : Str :=
  let base := last_component s
  let revExt := base.reverse.takeWhile (fun c => c ≠ '.')
  if 1 ≤ revExt.length ∧ revExt.length + 1 < base.length then '.' :: revExt.reverse else []

/-- Python `Path(src).suffix or '.png'` (icons.py line 32). -/
def ext_or_png (src : Str) : Str :=
  let e := path_suffix src
  if e.isEmpty then ".png".toList else e

/-- Python `icon.get('sizes', 'unknown').split('x')[0]` (icons.py line 31). -/
def size_prefix (ic : Icon) : Str := beforeX (ic.sizes.getD "unknown".toList)

/-- The destination file of a descriptor's download
(icons.py line 33: `self.icons_dir / f"icon_{size}{ext}"`). -/
def icon_dest (icons_dir : Str) (ic : Icon) (src : Str) : Str :=
  icons_dir ++ "/icon_".toList ++ size_prefix ic ++ ext_or_png src

/-- Model of the external HTTP client's answer for one URL: the status
code, the body chunks that `iter_content` delivers, and whether the stream
then raises (a decode/network error mid-body). -/
structure HttpResp where
  status : Nat
  chunks : List (List Nat)
  streamError : Bool

/-- Model of the external HTTP client: `requests.get` either raises
(`.error`) or returns a response. -/
abbrev Net := Str → Except Unit HttpResp

/-- Classification of what `download_icons` does for one descriptor:
skipped (no `src`), failed without touching the disk (request error or
non-200 status), or wrote `content` to `p` — completely (`ok = true`,
`local_path` is then set) or cut short by a stream error (`ok = false`,
`local_path` untouched, the partial `content` remains on disk). -/
inductive FetchOutcome where
  | skipped
  | failed
  | wrote (p : Str) (content : List Nat) (ok : Bool)

def fetch_outcome (net : Net) (base icons_dir : Str) (ic : Icon) : FetchOutcome :=
  match ic.src with
  | none => .skipped
  | some src =>
    match net (resolve_icon_url base src) with
    | .error _ => .failed
    | .ok resp =>
      if resp.status = 200 then
        .wrote (icon_dest icons_dir ic src) resp.chunks.flatten (!resp.streamError)
      else .failed

/-- One iteration of the `download_icons` loop
(`src/pwa2native/utils/icons.py` lines 19-45): missing `src` skips;
`requests.get` raising is caught and skips; a non-200 status warns and
skips; a 200 status opens the destination with `'wb'` (truncating), writes
the delivered chunks, and — only if the stream finished without raising —
sets `local_path`. -/
def download_icon_step (net : Net) (base icons_dir : Str) (st : Store) (ic : Icon) :
    Store × Icon :=
  match ic.src with
  | none => (st, ic)
  | some src =>
    match net (resolve_icon_url base src) with
    | .error _ => (st, ic)
    | .ok resp =>
      if resp.status = 200 then
        let p := icon_dest icons_dir ic src
        let st2 := setStore st p (.raw resp.chunks.flatten)
        if resp.streamError then (st2, ic) else (st2, { ic with local_path := some p })
      else (st, ic)

/-- `IconProcessor.download_icons` (icons.py lines 14-45): the loop over
the catalog, threading the file system. -/
def download_icons (net : Net) (base icons_dir : Str) :
    Store → List Icon → Store × List Icon
  | st, [] => (st, [])
  | st, ic :: rest =>
    let r1 := download_icon_step net base icons_dir st ic
    let r2 := download_icons net base icons_dir r1.1 rest
    (r2.1, r1.2 :: r2.2)

theorem download_icon_step_eq (net : Net) (base dir : Str) (st : Store) (ic : Icon) :
    download_icon_step net base dir st ic =
      match fetch_outcome net base dir ic with
      | .skipped => (st, ic)
      | .failed => (st, ic)
      | .wrote p c true => (setStore st p (.raw c), { ic with local_path := some p })
      | .wrote p c false => (setStore st p (.raw c), ic) := by
  obtain ⟨osrc, osz, olp⟩ := ic
  cases osrc with
  | none => rfl
  | some src =>
    simp only [download_icon_step, fetch_outcome]
    cases hnet : net (resolve_icon_url base src) with
    | error e => rfl
    | ok resp =>
      by_cases hst : resp.status = 200
      · simp only [if_pos hst]
        cases hse : resp.streamError <;> rfl
      · simp only [if_neg hst]

theorem fetch_outcome_wrote {net : Net} {base dir : Str} {ic : Icon} {p : Str}
    {c : List Nat} {ok : Bool} (h : fetch_outcome net base dir ic = .wrote p c ok) :
    ∃ src, ic.src = some src ∧ p = icon_dest dir ic src := by
  obtain ⟨osrc, osz, olp⟩ := ic
  cases osrc with
  | none => simp only [fetch_outcome] at h; exact FetchOutcome.noConfusion h
  | some src =>
    simp only [fetch_outcome] at h
    cases hnet : net (resolve_icon_url base src) with
    | error e => simp only [hnet] at h; exact FetchOutcome.noConfusion h
    | ok resp =>
      simp only [hnet] at h
      by_cases hst : resp.status = 200
      · rw [if_pos hst] at h
        injection h with h1 h2 h3
        exact ⟨src, rfl, h1.symm⟩
      · rw [if_neg hst] at h
        exact FetchOutcome.noConfusion h

/-- Untouched paths are preserved by the whole download loop. -/
theorem download_icons_preserve (net : Net) (base dir : Str) :
    ∀ (icons : List Icon) (st : Store) (p : Str),
    (∀ ic ∈ icons, ∀ src, ic.src = some src → icon_dest dir ic src ≠ p) →
    (download_icons net base dir st icons).1 p = st p := by
  intro icons
  induction icons with
  | nil => intro st p _; rfl
  | cons ic rest ih =>
    intro st p hp
    show (download_icons net base dir (download_icon_step net base dir st ic).1 rest).1 p = st p
    rw [ih _ p (fun ic2 h2 => hp ic2 (List.mem_cons_of_mem _ h2))]
    rw [download_icon_step_eq]
    cases ho : fetch_outcome net base dir ic with
    | skipped => rfl
    | failed => rfl
    | wrote q c ok =>
      obtain ⟨src, hsrc, hq⟩ := fetch_outcome_wrote ho
      have hqp : q ≠ p := hq ▸ hp ic (List.mem_cons_self _ _) src hsrc
      cases ok <;>
        · show setStore st q (.raw c) p = st p
          unfold setStore
          rw [if_neg (fun h => hqp h.symm)]

/-- The postcondition of claim C8 for `download_icons`: the loop visits
every descriptor and returns (it never aborts because one icon failed);
a descriptor whose download was skipped or failed — request error,
non-success status, or stream error — is returned unchanged (its
`local_path` stays absent); a descriptor whose download succeeded is
returned with `local_path` set to its destination path, and the file
store holds the complete downloaded content at that path. -/
def fetchAllGuarantee (net : Net) (base dir : Str) (st0 : Store) (icons : List Icon) : Prop :=
  (download_icons net base dir st0 icons).2.length = icons.length ∧
  ∀ i, ∀ h : i < icons.length,
    ∀ h2 : i < (download_icons net base dir st0 icons).2.length,
    match fetch_outcome net base dir (icons.get ⟨i, h⟩) with
    | .wrote p c true =>
      (download_icons net base dir st0 icons).2.get ⟨i, h2⟩ =
        { icons.get ⟨i, h⟩ with local_path := some p } ∧
      (download_icons net base dir st0 icons).1 p = some (.raw c)
    | _ => (download_icons net base dir st0 icons).2.get ⟨i, h2⟩ = icons.get ⟨i, h⟩

/-- The destination file names of all descriptors that have a `src`. -/
def dest_paths (dir : Str) (icons : List Icon) : List Str :=
  icons.filterMap (fun ic => ic.src.map (fun src => icon_dest dir ic src))

theorem dest_paths_cons_nodup {dir : Str} {ic : Icon} {rest : List Icon}
    (h : (dest_paths dir (ic :: rest)).Nodup) : (dest_paths dir rest).Nodup := by
  unfold dest_paths at h ⊢
  rw [List.filterMap_cons] at h
  cases hsrc : ic.src with
  | none => rw [hsrc] at h; exact h
  | some src =>
    rw [hsrc] at h
    simp only [Option.map_some'] at h
    exact (List.nodup_cons.mp h).2

theorem dest_paths_cons_notmem {dir : Str} {ic : Icon} {rest : List Icon} {src : Str}
    (hsrc : ic.src = some src) (h : (dest_paths dir (ic :: rest)).Nodup) :
    icon_dest dir ic src ∉ dest_paths dir rest := by
  unfold dest_paths at h ⊢
  rw [List.filterMap_cons, hsrc] at h
  simp only [Option.map_some'] at h
  exact (List.nodup_cons.mp h).1

theorem icon_dest_mem {dir : Str} {rest : List Icon} {ic2 : Icon} {src2 : Str}
    (h2 : ic2 ∈ rest) (hs : ic2.src = some src2) :
    icon_dest dir ic2 src2 ∈ dest_paths dir rest := by
  unfold dest_paths
  exact List.mem_filterMap.mpr ⟨ic2, h2, by rw [hs]; rfl⟩

/-- C8 (amended): for every catalog whose descriptors map to pairwise
distinct destination file names, `download_icons` visits every descriptor
and returns — one icon's failure never aborts the loop; every descriptor
whose download failed (request error, non-success status, or mid-stream
error) is returned with `local_path` still absent; every descriptor whose
download succeeded has `local_path` set to its destination file, which
exists in the file store with the fully-written downloaded content. (The
distinct-destination hypothesis is what the counterexample forces: a later
same-named descriptor failing mid-stream truncates the earlier file.) -/
theorem c8_fetch_soft_fail (net : Net) (base dir : Str) :
    ∀ (icons : List Icon) (st0 : Store), (dest_paths dir icons).Nodup →
    fetchAllGuarantee net base dir st0 icons := by
  intro icons
  induction icons with
  | nil =>
    intro st0 _
    exact ⟨rfl, fun i h _ => absurd h (by simp)⟩
  | cons ic rest ih =>
    intro st0 hnd
    have hndrest := dest_paths_cons_nodup hnd
    have ihr := ih (download_icon_step net base dir st0 ic).1 hndrest
    constructor
    · show ((download_icons net base dir (download_icon_step net base dir st0 ic).1 rest).2.length) + 1 =
        rest.length + 1
      rw [ihr.1]
    · intro i h h2
      cases i with
      | zero =>
        show match fetch_outcome net base dir ic with
          | .wrote p c true =>
            (download_icons net base dir st0 (ic :: rest)).2.get ⟨0, h2⟩ =
              { ic with local_path := some p } ∧
            (download_icons net base dir st0 (ic :: rest)).1 p = some (.raw c)
          | _ => (download_icons net base dir st0 (ic :: rest)).2.get ⟨0, h2⟩ = ic
        have hstep := download_icon_step_eq net base dir st0 ic
        cases ho : fetch_outcome net base dir ic with
        | skipped =>
          rw [ho] at hstep
          show (download_icons net base dir st0 (ic :: rest)).2.get ⟨0, h2⟩ = ic
          simp only [download_icons, hstep, List.get]
        | failed =>
          rw [ho] at hstep
          show (download_icons net base dir st0 (ic :: rest)).2.get ⟨0, h2⟩ = ic
          simp only [download_icons, hstep, List.get]
        | wrote p c ok =>
          obtain ⟨src, hsrc, hp⟩ := fetch_outcome_wrote ho
          have hnotin := dest_paths_cons_notmem hsrc hnd
          cases ok with
          | false =>
            rw [ho] at hstep
            show (download_icons net base dir st0 (ic :: rest)).2.get ⟨0, h2⟩ = ic
            simp only [download_icons, hstep, List.get]
          | true =>
            rw [ho] at hstep
            constructor
            · show (download_icons net base dir st0 (ic :: rest)).2.get ⟨0, h2⟩ =
                { ic with local_path := some p }
              simp only [download_icons, hstep, List.get]
            · show (download_icons net base dir st0 (ic :: rest)).1 p = some (.raw c)
              have hpres : (download_icons net base dir
                  (download_icon_step net base dir st0 ic).1 rest).1 p =
                  (download_icon_step net base dir st0 ic).1 p := by
                apply download_icons_preserve
                intro ic2 hmem src2 hsrc2 heq
                exact hnotin (hp ▸ heq ▸ icon_dest_mem hmem hsrc2)
              show (download_icons net base dir
                (download_icon_step net base dir st0 ic).1 rest).1 p = some (.raw c)
              rw [hpres, hstep]
              show setStore st0 p (.raw c) p = some (.raw c)
              unfold setStore
              rw [if_pos rfl]
      | succ j =>
        have hj : j < rest.length := by simpa using h
        have hj2 : j < (download_icons net base dir
            (download_icon_step net base dir st0 ic).1 rest).2.length := by
          rw [ihr.1]; exact hj
        exact ihr.2 j hj hj2

/-- First descriptor of C8's counterexample: `/a.png`, nominal size 48. -/
def c8IconA : Icon := ⟨some "/a.png".toList, some "48x48".toList, none⟩

/-- Second descriptor of C8's counterexample: a different source whose
`sizes` also begins `48`, so it maps to the same destination file. -/
def c8IconB : Icon := ⟨some "/b.png".toList, some "48x48".toList, none⟩

/-- Third descriptor, used by C8's witness: distinct destination. -/
def c8IconC : Icon := ⟨some "/b.png".toList, some "96x96".toList, none⟩

def c8Dir : Str := "dist/icons".toList

def c8Base : Str := "http://example.com".toList

/-- Network model of C8's counterexample: `/a.png` downloads fully
(status 200, body `[1, 2]`); any other URL answers 200 but the stream
raises after delivering `[9]`. -/
def c8Net : Net := fun u =>
  if u = c8Base ++ ('/' :: "a.png".toList) then .ok ⟨200, [[1, 2]], false⟩
  else .ok ⟨200, [[9]], true⟩

/-- C8 is false as stated: descriptor A succeeds (its download is complete
and `local_path` is set), but descriptor B — mapping to the same
destination file `icons/icon_48.png` — then truncates that file and fails
mid-stream, leaving A's `local_path` pointing at a file that holds only
B's partial bytes `[9]`, not a fully-written download. -/
theorem c8_counterexample :
    fetch_outcome c8Net c8Base c8Dir c8IconA =
      .wrote "dist/icons/icon_48.png".toList [1, 2] true ∧
    (download_icons c8Net c8Base c8Dir (fun _ => none) [c8IconA, c8IconB]).1
      "dist/icons/icon_48.png".toList = some (.raw [9]) ∧
    ¬ fetchAllGuarantee c8Net c8Base c8Dir (fun _ => none) [c8IconA, c8IconB] := by
  refine ⟨rfl, rfl, ?_⟩
  intro hg
  have h0 := hg.2 0 (by norm_num) (by rw [hg.1]; norm_num)
  have hst2 : (download_icons c8Net c8Base c8Dir (fun _ => none) [c8IconA, c8IconB]).1
      "dist/icons/icon_48.png".toList = some (.raw [1, 2]) := h0.2
  have hfalse : some (FileData.raw [9]) = some (FileData.raw [1, 2]) :=
    (show (download_icons c8Net c8Base c8Dir (fun _ => none) [c8IconA, c8IconB]).1
        "dist/icons/icon_48.png".toList = some (.raw [9]) from rfl).symm.trans hst2
  injection hfalse with h1
  injection h1 with h2
  exact absurd h2 (by decide)

/-- Witness for C8's amended theorem: two descriptors with distinct
destination files; the first succeeds, the second fails mid-stream. -/
theorem c8_fetch_soft_fail_witness :
    fetchAllGuarantee c8Net c8Base c8Dir (fun _ => none) [c8IconA, c8IconC] :=
  c8_fetch_soft_fail c8Net c8Base c8Dir [c8IconA, c8IconC] (fun _ => none) (by decide)

end PWA2Native
